import Mathlib

/-!
Verification of the value-serialization core of the repository:
the serializability oracle with its Firefox quirk, the prototype-chain
flattener, and the sanitization pipeline, embedded from
src/packages/driver/src/util/serialization.ts.
-/

namespace Serialization

/-- A model of the JavaScript values the serialization code handles.
Composite objects and functions carry their full prototype chain as a list
of links; each link is the list of own properties of that link, a property
being a name, a flag telling whether it is getter-backed, and its value.
Error objects are marked with a Boolean flag, used by lodash isError. -/
inductive JsVal : Type where
  | undefined : JsVal
  | null : JsVal
  | bool (b : Bool) : JsVal
  | num (n : Int) : JsVal
  | str (s : String) : JsVal
  | sym (id : Nat) : JsVal
  | func (links : List (List (String × Bool × JsVal))) : JsVal
  | arr (elems : List JsVal) : JsVal
  | obj (isErr : Bool) (links : List (List (String × Bool × JsVal))) : JsVal

/-- One link of a prototype chain: the own properties of that link. -/
abbrev Link := List (String × Bool × JsVal)

/-- JavaScript truthiness of a model value. -/
def truthy : JsVal → Bool
  | .undefined => false
  | .null => false
  | .bool b => b
  | .num n => !(n == 0)
  | .str s => !(s == "")
  | .sym _ => true
  | .func _ => true
  | .arr _ => true
  | .obj _ _ => true

/-- lodash isError on a model value. -/
def isError : JsVal → Bool
  | .obj e _ => e
  | _ => false

/-- lodash isArray on a model value. -/
def isArray : JsVal → Bool
  | .arr _ => true
  | _ => false

/-- lodash isObject: true for objects, arrays and functions. -/
def isObject : JsVal → Bool
  | .obj _ _ => true
  | .arr _ => true
  | .func _ => true
  | _ => false

/-- The ambient host environment the oracle consults: whether the browser
family is firefox, and whether the native structuredClone exists (when it
does, structuredCloneRef is the native primitive; otherwise the ponyfill). -/
structure Env : Type where
  isFirefox : Bool
  nativeStructuredClone : Bool
deriving Repr, DecidableEq

/-- The serializability oracle, from isSerializableInCurrentBrowser.
primOk models the active clone-capability primitive: true when the
structuredCloneRef call returns, false when it throws (the catch branch).
After a successful clone attempt, the firefox override rejects error
values when the ponyfill, not the native primitive, is active. -/
def isSerializableInCurrentBrowser (env : Env) (primOk : JsVal → Bool)
    (value : JsVal) : Bool :=
  if primOk value then
    if env.isFirefox && isError value && !env.nativeStructuredClone then
      false
    else
      true
  else
    false

/-- Own property names of a chain link, in definition order
(Object.getOwnPropertyNames on the link). -/
def ownNames (l : Link) : List String := l.map (fun e => e.1)

/-- The own property entry of a link for a given name, if present. -/
def lookupEntry (l : Link) (p : String) : Option (String × Bool × JsVal) :=
  l.find? (fun e => e.1 == p)

/-- The link's own value for a name: currentObjectRef at prop, when prop is
an own property of the link. -/
def ownValue (l : Link) (p : String) : JsVal :=
  ((lookupEntry l p).map (fun e => e.2.2)).getD .undefined

/-- Whether the link's own property for a name is getter-backed. -/
def ownGetter (l : Link) (p : String) : Bool :=
  ((lookupEntry l p).map (fun e => e.2.1)).getD false

/-- Normal property lookup on the original object: the entry of the first
chain link that has the name as an own property. -/
def chainEntry : List Link → String → Option (String × Bool × JsVal)
  | [], _ => none
  | l :: ls, k =>
    match lookupEntry l k with
    | some e => some e
    | none => chainEntry ls k

/-- The original object's resolved value for a name (obj at key). -/
def chainGet (links : List Link) (k : String) : JsVal :=
  ((chainEntry links k).map (fun e => e.2.2)).getD .undefined

/-- Whether normal lookup on the original object resolves the name to a
getter-backed property. -/
def chainGetter (links : List Link) (k : String) : Bool :=
  ((chainEntry links k).map (fun e => e.2.1)).getD false

/-- One iteration of the inner forEach of convertObjectToSerializableLiteral:
for each own property name of the current link that is not already in
allProps, test the link's value with the oracle and push the name if it
passes. -/
def acceptLink (o : JsVal → Bool) (l : Link) (acc : List String) :
    List String :=
  (ownNames l).foldl
    (fun a p => if !a.contains p && o (ownValue l p) then a ++ [p] else a)
    acc

/-- The do-while walk over the chain links, accumulating accepted names. -/
def acceptChain (o : JsVal → Bool) : List Link → List String → List String
  | [], acc => acc
  | l :: ls, acc => acceptChain o ls (acceptLink o l acc)

/-- allProps after the full walk of convertObjectToSerializableLiteral. -/
def acceptedProps (o : JsVal → Bool) (links : List Link) : List String :=
  acceptChain o links []

/-- The accepted name to resolved value pairs copied into the literal:
objectAsLiteral at key becomes obj at key, in allProps order. -/
def flattenPairs (o : JsVal → Bool) (links : List Link) :
    List (String × JsVal) :=
  (acceptedProps o links).map (fun k => (k, chainGet links k))

/-- One step of the chain walk as the spec describes it: for each own
property name of the current link that is not already accepted, the oracle
is applied to the original object's resolved value for that name, not to
the link's own value. This definition follows the words of the spec and is
compared against acceptLink, which is embedded from the source. -/
def acceptLinkSpec (o : JsVal → Bool) (links : List Link) (l : Link)
    (acc : List String) : List String :=
  (ownNames l).foldl
    (fun a p => if !a.contains p && o (chainGet links p) then a ++ [p] else a)
    acc

/-- The chain walk as the spec describes it, testing resolved values. -/
def acceptChainSpec (o : JsVal → Bool) (links : List Link) :
    List Link → List String → List String
  | [], acc => acc
  | l :: ls, acc => acceptChainSpec o links ls (acceptLinkSpec o links l acc)

/-- Accepted names under the spec's description of the walk. -/
def acceptedPropsSpec (o : JsVal → Bool) (links : List Link) : List String :=
  acceptChainSpec o links links []

/-- One link of the walk, additionally recording every property read the
code performs. A read of currentObjectRef at prop happens exactly when the
name is not already in allProps, because the conjunction short-circuits;
the read is recorded with the flag telling whether the own property it hit
is getter-backed. -/
def testLink (o : JsVal → Bool) (l : Link)
    (st : List String × List (String × Bool)) :
    List String × List (String × Bool) :=
  (ownNames l).foldl
    (fun st p =>
      if st.1.contains p then st
      else
        (if o (ownValue l p) then st.1 ++ [p] else st.1,
         st.2 ++ [(p, ownGetter l p)]))
    st

/-- The full chain walk with its read log. -/
def walkChainLog (o : JsVal → Bool) :
    List Link → (List String × List (String × Bool)) →
    (List String × List (String × Bool))
  | [], st => st
  | l :: ls, st => walkChainLog o ls (testLink o l st)

/-- Every property read of one flattening run, in order: the reads made
while testing names during the walk, followed by the read of obj at key
performed for each accepted key when it is copied into the literal. -/
def propertyReads (o : JsVal → Bool) (links : List Link) :
    List (String × Bool) :=
  let st := walkChainLog o links ([], [])
  st.2 ++ st.1.map (fun k => (k, chainGetter links k))

/-- How many times the flattening run invokes a getter backing the given
property name: the number of recorded reads of that name that hit a
getter-backed property. -/
def getterInvocations (o : JsVal → Bool) (links : List Link)
    (name : String) : Nat :=
  ((propertyReads o links).filter (fun e => e.1 == name && e.2)).length

/-- convertObjectToSerializableLiteral: the resulting object literal. Its
own link holds the accepted pairs as plain data properties; its prototype
is the ambient Object prototype objProto, since the literal is created as
an empty object literal. -/
def convertObjectToSerializableLiteral (o : JsVal → Bool) (objProto : Link)
    (links : List Link) : JsVal :=
  .obj false [(flattenPairs o links).map (fun kv => (kv.1, false, kv.2)), objProto]

/-- omitUnserializablePropertiesFromObj: lodash pickBy over the own
enumerable entries of a flat mapping, keeping entries whose value the
oracle accepts. -/
def omitUnserializablePropertiesFromObj (env : Env) (primOk : JsVal → Bool)
    (m : List (String × JsVal)) : List (String × JsVal) :=
  m.filter (fun kv => isSerializableInCurrentBrowser env primOk kv.2)

/-- The distinguished unserializable sentinel thrown by the pipeline. -/
def UNSERIALIZABLE : String := "__cypress_unserializable_value"

mutual

/-- preprocessErrorsForSerialization: arrays are lodash-filtered with the
recursive call as predicate; objects and functions (lodash isObject) are
flattened to a literal; everything else is returned unchanged when the
oracle accepts it and otherwise the sentinel is thrown. -/
def preprocessErrorsForSerialization (env : Env) (primOk : JsVal → Bool)
    (objProto : Link) : JsVal → Except String JsVal
  | .arr es =>
    Except.map JsVal.arr (preprocessList env primOk objProto es)
  | .obj _ links =>
    Except.ok (convertObjectToSerializableLiteral
      (isSerializableInCurrentBrowser env primOk) objProto links)
  | .func links =>
    Except.ok (convertObjectToSerializableLiteral
      (isSerializableInCurrentBrowser env primOk) objProto links)
  | .undefined =>
    if isSerializableInCurrentBrowser env primOk .undefined then Except.ok .undefined
    else Except.error UNSERIALIZABLE
  | .null =>
    if isSerializableInCurrentBrowser env primOk .null then Except.ok .null
    else Except.error UNSERIALIZABLE
  | .bool b =>
    if isSerializableInCurrentBrowser env primOk (.bool b) then
      Except.ok (.bool b)
    else Except.error UNSERIALIZABLE
  | .num n =>
    if isSerializableInCurrentBrowser env primOk (.num n) then
      Except.ok (.num n)
    else Except.error UNSERIALIZABLE
  | .str s =>
    if isSerializableInCurrentBrowser env primOk (.str s) then
      Except.ok (.str s)
    else Except.error UNSERIALIZABLE
  | .sym i =>
    if isSerializableInCurrentBrowser env primOk (.sym i) then
      Except.ok (.sym i)
    else Except.error UNSERIALIZABLE

/-- The lodash filter pass over the elements of an array: the predicate is
the recursive sanitization itself, so an element is kept, unchanged, when
its sanitized value is truthy; an exception from the recursive call
propagates and aborts the whole filter. -/
def preprocessList (env : Env) (primOk : JsVal → Bool) (objProto : Link) :
    List JsVal → Except String (List JsVal)
  | [] => Except.ok []
  | e :: es => do
    let r ← preprocessErrorsForSerialization env primOk objProto e
    let rest ← preprocessList env primOk objProto es
    pure (if truthy r then e :: rest else rest)

end

/-- The retention test the array branch effectively applies to an element:
the element is kept exactly when its recursive sanitization returns a
truthy value; an element whose recursive sanitization throws has no
verdict, since the exception aborts the whole filter. -/
def keptBySanitize (env : Env) (primOk : JsVal → Bool) (objProto : Link)
    (e : JsVal) : Bool :=
  match preprocessErrorsForSerialization env primOk objProto e with
  | .ok r => truthy r
  | .error _ => false

/-- A plain non-firefox environment with a native structuredClone. -/
def env0 : Env := ⟨false, true⟩

/-- A concrete capability primitive: the clone call returns on primitives,
strings, numbers, arrays and objects, and throws on functions and
symbols, as structuredClone does. -/
def primNoFn : JsVal → Bool
  | .func _ => false
  | .sym _ => false
  | _ => true

/-- The oracle induced by env0 and primNoFn. -/
def o0 : JsVal → Bool := isSerializableInCurrentBrowser env0 primNoFn

/-! ### Properties of the chain walk -/

lemma exists_entry_of_mem_ownNames {l : Link} {p : String}
    (h : p ∈ ownNames l) :
    ∃ e, lookupEntry l p = some e ∧ e ∈ l ∧ e.1 = p := by
  have hsome : (lookupEntry l p).isSome := by
    rw [lookupEntry, List.find?_isSome]
    rcases List.mem_map.mp h with ⟨e, he, hep⟩
    exact ⟨e, he, by simp [hep]⟩
  rcases Option.isSome_iff_exists.mp hsome with ⟨e, he⟩
  refine ⟨e, he, List.mem_of_find?_eq_some he, ?_⟩
  have := List.find?_some he
  simpa using this

lemma ownValue_spec {l : Link} {p : String} (h : p ∈ ownNames l) :
    ∃ e, e ∈ l ∧ e.1 = p ∧ ownValue l p = e.2.2 ∧ ownGetter l p = e.2.1 := by
  rcases exists_entry_of_mem_ownNames h with ⟨e, hfind, hmem, hname⟩
  exact ⟨e, hmem, hname, by simp [ownValue, hfind], by simp [ownGetter, hfind]⟩

lemma mem_acceptFold (o : JsVal → Bool) (l : Link) (ps : List String) :
    ∀ (acc : List String) (k : String),
      (k ∈ ps.foldl
        (fun a p => if !a.contains p && o (ownValue l p) then a ++ [p] else a)
        acc) ↔
      (k ∈ acc ∨ (k ∈ ps ∧ o (ownValue l k) = true)) := by
  induction ps with
  | nil => intro acc k; simp
  | cons p ps ih =>
    intro acc k
    rw [List.foldl_cons, ih]
    by_cases hc : acc.contains p
    · have hmem : p ∈ acc := List.elem_iff.mp hc
      simp only [hc, Bool.not_true, Bool.false_and, if_neg, Bool.false_eq_true,
        not_false_iff, List.mem_cons]
      constructor
      · rintro (h | h)
        · exact Or.inl h
        · exact Or.inr ⟨Or.inr h.1, h.2⟩
      · rintro (h | ⟨(rfl | h), ho⟩)
        · exact Or.inl h
        · exact Or.inl hmem
        · exact Or.inr ⟨h, ho⟩
    · by_cases ho : o (ownValue l p)
      · simp only [hc, Bool.not_false, ho, Bool.and_self, if_pos, List.mem_append,
          List.mem_singleton, List.mem_cons, List.not_mem_nil, or_false]
        constructor
        · rintro ((h | rfl) | h)
          · exact Or.inl h
          · exact Or.inr ⟨Or.inl rfl, ho⟩
          · exact Or.inr ⟨Or.inr h.1, h.2⟩
        · rintro (h | ⟨(rfl | h), hok⟩)
          · exact Or.inl (Or.inl h)
          · exact Or.inl (Or.inr rfl)
          · exact Or.inr ⟨h, hok⟩
      · have ho' : o (ownValue l p) = false := by
          simpa using ho
        simp only [hc, Bool.not_false, ho', Bool.and_false, if_neg, Bool.false_eq_true,
          not_false_iff, List.mem_cons]
        constructor
        · rintro (h | h)
          · exact Or.inl h
          · exact Or.inr ⟨Or.inr h.1, h.2⟩
        · rintro (h | ⟨(rfl | h), hok⟩)
          · exact Or.inl h
          · exact absurd hok (by simp [ho'])
          · exact Or.inr ⟨h, hok⟩

lemma mem_acceptLink (o : JsVal → Bool) (l : Link) (acc : List String)
    (k : String) :
    k ∈ acceptLink o l acc ↔
      k ∈ acc ∨ (k ∈ ownNames l ∧ o (ownValue l k) = true) :=
  mem_acceptFold o l (ownNames l) acc k

lemma mem_acceptChain (o : JsVal → Bool) (ls : List Link) :
    ∀ (acc : List String) (k : String),
      k ∈ acceptChain o ls acc ↔
        k ∈ acc ∨ ∃ l ∈ ls, k ∈ ownNames l ∧ o (ownValue l k) = true := by
  induction ls with
  | nil => intro acc k; simp [acceptChain]
  | cons l ls ih =>
    intro acc k
    rw [acceptChain, ih, mem_acceptLink]
    simp only [List.mem_cons]
    constructor
    · rintro ((h | h) | ⟨l', hl', h⟩)
      · exact Or.inl h
      · exact Or.inr ⟨l, Or.inl rfl, h⟩
      · exact Or.inr ⟨l', Or.inr hl', h⟩
    · rintro (h | ⟨l', (rfl | hl'), h⟩)
      · exact Or.inl (Or.inl h)
      · exact Or.inl (Or.inr h)
      · exact Or.inr ⟨l', hl', h⟩

lemma mem_acceptedProps (o : JsVal → Bool) (links : List Link) (k : String) :
    k ∈ acceptedProps o links ↔
      ∃ l ∈ links, k ∈ ownNames l ∧ o (ownValue l k) = true := by
  rw [acceptedProps, mem_acceptChain]
  simp

lemma nodup_acceptFold (o : JsVal → Bool) (l : Link) (ps : List String) :
    ∀ (acc : List String), acc.Nodup →
      (ps.foldl
        (fun a p => if !a.contains p && o (ownValue l p) then a ++ [p] else a)
        acc).Nodup := by
  induction ps with
  | nil => intro acc h; simpa using h
  | cons p ps ih =>
    intro acc h
    rw [List.foldl_cons]
    apply ih
    by_cases hc : acc.contains p
    · rw [if_neg (by rw [hc]; simp)]
      exact h
    · by_cases ho : o (ownValue l p)
      · have hp : p ∉ acc := fun hmem => hc (List.elem_iff.mpr hmem)
        have hc' : acc.contains p = false := by simpa using hc
        rw [if_pos (by rw [hc', ho]; rfl)]
        simp [List.nodup_append, h, hp]
      · have ho' : o (ownValue l p) = false := by simpa using ho
        rw [if_neg (by simp [ho'])]
        exact h

lemma nodup_acceptChain (o : JsVal → Bool) (ls : List Link) :
    ∀ (acc : List String), acc.Nodup → (acceptChain o ls acc).Nodup := by
  induction ls with
  | nil => intro acc h; simpa [acceptChain] using h
  | cons l ls ih =>
    intro acc h
    rw [acceptChain]
    exact ih _ (nodup_acceptFold o l (ownNames l) acc h)

lemma nodup_acceptedProps (o : JsVal → Bool) (links : List Link) :
    (acceptedProps o links).Nodup :=
  nodup_acceptChain o links [] List.nodup_nil

lemma acceptFold_all_true (o : JsVal → Bool) (l : Link) (ps : List String) :
    ∀ (acc : List String), (∀ p ∈ ps, o (ownValue l p) = true) → ps.Nodup →
      (∀ p ∈ ps, p ∉ acc) →
      ps.foldl
        (fun a p => if !a.contains p && o (ownValue l p) then a ++ [p] else a)
        acc = acc ++ ps := by
  induction ps with
  | nil => intro acc _ _ _; simp
  | cons p ps ih =>
    intro acc hall hnd hdisj
    rw [List.foldl_cons]
    have hp : p ∉ acc := hdisj p (List.mem_cons_self p ps)
    have hc : acc.contains p = false := by
      simp [List.elem_iff, hp]
    have ho : o (ownValue l p) = true := hall p (List.mem_cons_self p ps)
    rw [if_pos (by rw [hc, ho]; rfl)]
    rw [ih (acc ++ [p]) (fun q hq => hall q (List.mem_cons_of_mem p hq))
      (List.Nodup.of_cons hnd) ?_]
    · simp
    · intro q hq
      simp only [List.mem_append, List.mem_singleton]
      rintro (h | rfl)
      · exact hdisj q (List.mem_cons_of_mem p hq) h
      · exact (List.nodup_cons.mp hnd).1 hq

lemma acceptFold_all_false (o : JsVal → Bool) (l : Link) (ps : List String) :
    ∀ (acc : List String), (∀ p ∈ ps, o (ownValue l p) = false) →
      ps.foldl
        (fun a p => if !a.contains p && o (ownValue l p) then a ++ [p] else a)
        acc = acc := by
  induction ps with
  | nil => intro acc _; simp
  | cons p ps ih =>
    intro acc hall
    rw [List.foldl_cons]
    have ho : o (ownValue l p) = false := hall p (List.mem_cons_self p ps)
    rw [if_neg (by simp [ho])]
    exact ih acc (fun q hq => hall q (List.mem_cons_of_mem p hq))

/-! ### Lookup lemmas -/

lemma lookupEntry_cons (e : String × Bool × JsVal) (l : Link) (k : String) :
    lookupEntry (e :: l) k =
      if (e.1 == k) then some e else lookupEntry l k := by
  by_cases h : (e.1 == k) = true
  · simp [lookupEntry, List.find?_cons, h]
  · have h2 : (e.1 == k) = false := by simpa using h
    simp [lookupEntry, List.find?_cons, h2]

lemma chainGet_cons_of_some {l : Link} {ls : List Link} {k : String}
    {e : String × Bool × JsVal} (h : lookupEntry l k = some e) :
    chainGet (l :: ls) k = e.2.2 := by
  simp [chainGet, chainEntry, h]

lemma chainGet_cons_head_ne {e : String × Bool × JsVal} {l : Link}
    {ls : List Link} {k : String} (h : (e.1 == k) = false) :
    chainGet ((e :: l) :: ls) k = chainGet (l :: ls) k := by
  simp [chainGet, chainEntry, lookupEntry_cons, h]

lemma map_chainGet_toLink (ls : List Link) :
    ∀ (pairs : List (String × JsVal)),
      (pairs.map (fun kv => kv.1)).Nodup →
      (pairs.map (fun kv => kv.1)).map
        (fun k =>
          (k, chainGet ((pairs.map (fun kv => (kv.1, false, kv.2))) :: ls) k))
        = pairs := by
  intro pairs
  induction pairs with
  | nil => intro _; simp
  | cons kv rest ih =>
    intro hnd
    obtain ⟨k0, v0⟩ := kv
    simp only [List.map_cons]
    have hhead :
        chainGet (((k0, false, v0) :: rest.map (fun kv => (kv.1, false, kv.2))) :: ls) k0
          = v0 := by
      have : lookupEntry ((k0, false, v0) :: rest.map (fun kv => (kv.1, false, kv.2))) k0
          = some (k0, false, v0) := by
        rw [lookupEntry_cons, if_pos (by simp)]
      exact chainGet_cons_of_some this
    rw [hhead]
    have hnd2 : (k0 :: rest.map (fun kv => kv.1)).Nodup := by
      simpa only [List.map_cons] using hnd
    have hk0 : k0 ∉ rest.map (fun kv => kv.1) :=
      (List.nodup_cons.mp hnd2).1
    have htail :
        (rest.map (fun kv => kv.1)).map
          (fun k =>
            (k, chainGet (((k0, false, v0) :: rest.map (fun kv => (kv.1, false, kv.2))) :: ls) k))
          = (rest.map (fun kv => kv.1)).map
          (fun k =>
            (k, chainGet ((rest.map (fun kv => (kv.1, false, kv.2))) :: ls) k)) := by
      apply List.map_congr_left
      intro k hk
      have hne : (k0 == k) = false := by
        have : k0 ≠ k := fun hEq => hk0 (hEq ▸ hk)
        simpa using this
      rw [chainGet_cons_head_ne hne]
    rw [htail, ih (List.Nodup.of_cons hnd2)]

/-- The accepted keys of a flattening are exactly the key column of its
pairs. -/
lemma flattenPairs_keys (o : JsVal → Bool) (links : List Link) :
    (flattenPairs o links).map (fun kv => kv.1) = acceptedProps o links := by
  simp [flattenPairs, List.map_map, Function.comp_def]

/-- Re-flattening a literal built from accepted pairs returns the same
pairs, provided every pair's value passes the oracle and every own
property of the ambient Object prototype fails it. -/
lemma flattenPairs_literal (o : JsVal → Bool) (objProto : Link)
    (pairs : List (String × JsVal))
    (hnd : (pairs.map (fun kv => kv.1)).Nodup)
    (h1 : ∀ kv ∈ pairs, o kv.2 = true)
    (h2 : ∀ e ∈ objProto, o e.2.2 = false) :
    flattenPairs o [pairs.map (fun kv => (kv.1, false, kv.2)), objProto]
      = pairs := by
  have hnames : ownNames (pairs.map (fun kv => (kv.1, false, kv.2)))
      = pairs.map (fun kv => kv.1) := by
    simp [ownNames, List.map_map, Function.comp]
  have hallTrue : ∀ p ∈ ownNames (pairs.map (fun kv => (kv.1, false, kv.2))),
      o (ownValue (pairs.map (fun kv => (kv.1, false, kv.2))) p) = true := by
    intro p hp
    rcases ownValue_spec hp with ⟨e, hmem, _, hval, _⟩
    rcases List.mem_map.mp hmem with ⟨kv, hkv, rfl⟩
    rw [hval]
    exact h1 kv hkv
  have hallFalse : ∀ p ∈ ownNames objProto,
      o (ownValue objProto p) = false := by
    intro p hp
    rcases ownValue_spec hp with ⟨e, hmem, _, hval, _⟩
    rw [hval]
    exact h2 e hmem
  have haccept :
      acceptedProps o [pairs.map (fun kv => (kv.1, false, kv.2)), objProto]
        = pairs.map (fun kv => kv.1) := by
    rw [acceptedProps, acceptChain, acceptChain, acceptChain, acceptLink,
      acceptLink]
    rw [acceptFold_all_true o _ _ [] hallTrue (by rw [hnames]; exact hnd)
      (by intro p _; exact List.not_mem_nil p)]
    rw [List.nil_append, hnames]
    exact acceptFold_all_false o _ _ _
      (fun p hp => hallFalse p hp)
  rw [flattenPairs, haccept]
  exact map_chainGet_toLink [objProto] pairs hnd

/-! ### Pipeline lemmas -/

lemma preprocess_scalar (env : Env) (primOk : JsVal → Bool) (objProto : Link)
    (v : JsVal) (ha : isArray v = false) (ho : isObject v = false) :
    preprocessErrorsForSerialization env primOk objProto v =
      if isSerializableInCurrentBrowser env primOk v then Except.ok v
      else Except.error UNSERIALIZABLE := by
  cases v <;> first | rfl | simp_all [isArray, isObject]

lemma preprocessList_cons_error1 (env : Env) (primOk : JsVal → Bool)
    (objProto : Link) (e : JsVal) (es : List JsVal) (s : String)
    (h1 : preprocessErrorsForSerialization env primOk objProto e
      = Except.error s) :
    preprocessList env primOk objProto (e :: es) = Except.error s := by
  rw [preprocessList, h1]
  rfl

lemma preprocessList_cons_error2 (env : Env) (primOk : JsVal → Bool)
    (objProto : Link) (e : JsVal) (es : List JsVal) (r : JsVal) (s : String)
    (h1 : preprocessErrorsForSerialization env primOk objProto e
      = Except.ok r)
    (h2 : preprocessList env primOk objProto es = Except.error s) :
    preprocessList env primOk objProto (e :: es) = Except.error s := by
  rw [preprocessList, h1]
  show (preprocessList env primOk objProto es).bind _ = _
  rw [h2]
  rfl

lemma preprocessList_cons_ok (env : Env) (primOk : JsVal → Bool)
    (objProto : Link) (e : JsVal) (es : List JsVal) (r : JsVal)
    (rest : List JsVal)
    (h1 : preprocessErrorsForSerialization env primOk objProto e
      = Except.ok r)
    (h2 : preprocessList env primOk objProto es = Except.ok rest) :
    preprocessList env primOk objProto (e :: es)
      = Except.ok (if truthy r then e :: rest else rest) := by
  rw [preprocessList, h1]
  show (preprocessList env primOk objProto es).bind _ = _
  rw [h2]
  rfl

lemma preprocessList_filter (env : Env) (primOk : JsVal → Bool)
    (objProto : Link) (es : List JsVal) :
    ∀ rs, preprocessList env primOk objProto es = Except.ok rs →
      rs = es.filter (keptBySanitize env primOk objProto) := by
  induction es with
  | nil =>
    intro rs h
    rw [preprocessList] at h
    cases h
    simp
  | cons e es ih =>
    intro rs h
    cases hpe : preprocessErrorsForSerialization env primOk objProto e with
    | error s =>
      rw [preprocessList_cons_error1 env primOk objProto e es s hpe] at h
      cases h
    | ok r =>
      cases hpl : preprocessList env primOk objProto es with
      | error s =>
        rw [preprocessList_cons_error2 env primOk objProto e es r s hpe hpl]
          at h
        cases h
      | ok rest =>
        rw [preprocessList_cons_ok env primOk objProto e es r rest hpe hpl]
          at h
        cases h
        rw [List.filter_cons]
        have hkept : keptBySanitize env primOk objProto e = truthy r := by
          simp [keptBySanitize, hpe]
        rw [hkept, ← ih rest hpl]

/-! ### The logged walk computes the same accepted names -/

lemma testFold_fst (o : JsVal → Bool) (l : Link) (ps : List String) :
    ∀ st : List String × List (String × Bool),
      (ps.foldl
        (fun st p =>
          if st.1.contains p then st
          else
            (if o (ownValue l p) then st.1 ++ [p] else st.1,
             st.2 ++ [(p, ownGetter l p)]))
        st).1
      = ps.foldl
        (fun a p => if !a.contains p && o (ownValue l p) then a ++ [p] else a)
        st.1 := by
  induction ps with
  | nil => intro st; rfl
  | cons p ps ih =>
    intro st
    rw [List.foldl_cons, List.foldl_cons, ih]
    congr 1
    by_cases hc : st.1.contains p
    · rw [if_pos hc, if_neg (by rw [hc]; simp)]
    · have hc2 : st.1.contains p = false := by simpa using hc
      rw [if_neg (by rw [hc2]; simp)]
      by_cases ho : o (ownValue l p)
      · rw [if_pos ho, if_pos (by rw [hc2, ho]; rfl)]
      · have ho2 : o (ownValue l p) = false := by simpa using ho
        rw [if_neg (by rw [ho2]; simp), if_neg (by rw [ho2]; simp)]

lemma testLink_fst (o : JsVal → Bool) (l : Link)
    (st : List String × List (String × Bool)) :
    (testLink o l st).1 = acceptLink o l st.1 :=
  testFold_fst o l (ownNames l) st

lemma walkChainLog_fst (o : JsVal → Bool) (ls : List Link) :
    ∀ st, (walkChainLog o ls st).1 = acceptChain o ls st.1 := by
  induction ls with
  | nil => intro st; rfl
  | cons l ls ih =>
    intro st
    rw [walkChainLog, acceptChain, ih, testLink_fst]

/-! ## Claim theorems -/

/-- C6: for an error-like value, with firefox and the ponyfill active the
oracle returns false even when the active primitive accepts the value;
with the native primitive active the primitive's verdict stands; and a
throwing capability check is absorbed into a false verdict. -/
theorem oracle_firefox_quirk (primOk : JsVal → Bool) (v : JsVal)
    (hErr : isError v = true) :
    (primOk v = true →
      isSerializableInCurrentBrowser ⟨true, false⟩ primOk v = false)
    ∧ isSerializableInCurrentBrowser ⟨true, true⟩ primOk v = primOk v
    ∧ (∀ env : Env, primOk v = false →
        isSerializableInCurrentBrowser env primOk v = false) := by
  refine ⟨?_, ?_, ?_⟩
  · intro h
    simp [isSerializableInCurrentBrowser, h, hErr]
  · cases hp : primOk v <;>
      simp [isSerializableInCurrentBrowser, hp, hErr]
  · intro env h
    simp [isSerializableInCurrentBrowser, h]

/-- Witness for C6 at a concrete error object and primitive. -/
theorem oracle_firefox_quirk_witness :
    isSerializableInCurrentBrowser ⟨true, false⟩ primNoFn
        (.obj true []) = false
    ∧ isSerializableInCurrentBrowser ⟨true, true⟩ primNoFn
        (.obj true []) = true := by
  have h := oracle_firefox_quirk primNoFn (.obj true []) rfl
  exact ⟨h.1 rfl, h.2.1.trans rfl⟩

/-- C8: omitUnserializablePropertiesFromObj keeps exactly the entries of
the flat mapping whose values the oracle accepts, with their original
values. -/
theorem omit_retains_exactly_oracle_passing (env : Env)
    (primOk : JsVal → Bool) (m : List (String × JsVal)) (k : String)
    (v : JsVal) :
    (k, v) ∈ omitUnserializablePropertiesFromObj env primOk m ↔
      ((k, v) ∈ m ∧ isSerializableInCurrentBrowser env primOk v = true) := by
  simp [omitUnserializablePropertiesFromObj, List.mem_filter]

/-- Witness for C8: the valid entry is kept, the unserializable one is
dropped. -/
theorem omit_retains_exactly_oracle_passing_witness :
    ("a", JsVal.num 1) ∈ omitUnserializablePropertiesFromObj env0 primNoFn
        [("a", .num 1), ("b", .sym 0)]
    ∧ ("b", JsVal.sym 0) ∉ omitUnserializablePropertiesFromObj env0 primNoFn
        [("a", .num 1), ("b", .sym 0)] := by
  constructor
  · exact (omit_retains_exactly_oracle_passing env0 primNoFn
      [("a", .num 1), ("b", .sym 0)] "a" (.num 1)).mpr ⟨by simp, rfl⟩
  · intro hmem
    have h := (omit_retains_exactly_oracle_passing env0 primNoFn
      [("a", .num 1), ("b", .sym 0)] "b" (.sym 0)).mp hmem
    exact absurd h.2 (by decide)

/-- C5 counterexample: a function is rejected by the oracle, yet the
pipeline does not raise on it; lodash isObject classifies functions as
composite, so they are flattened instead of hitting the scalar branch. -/
theorem scalar_branch_function_cx :
    isSerializableInCurrentBrowser env0 primNoFn
        (.func [[("name", false, .str "f")]]) = false
    ∧ preprocessErrorsForSerialization env0 primNoFn []
        (.func [[("name", false, .str "f")]])
      = Except.ok (.obj false [[("name", false, .str "f")], []]) :=
  ⟨rfl, rfl⟩

/-- C5 amended: for every value that is neither an array nor object-like
under the runtime classification (which counts functions as object-like),
the pipeline returns the value unchanged when the oracle accepts it and
raises the unserializable sentinel exactly when the oracle rejects it. -/
theorem scalar_branch_raises_iff (env : Env) (primOk : JsVal → Bool)
    (objProto : Link) (v : JsVal) (ha : isArray v = false)
    (ho : isObject v = false) :
    preprocessErrorsForSerialization env primOk objProto v =
      (if isSerializableInCurrentBrowser env primOk v then Except.ok v
       else Except.error UNSERIALIZABLE) :=
  preprocess_scalar env primOk objProto v ha ho

/-- Witness for C5 amended: a rejected symbol raises, an accepted number
passes through unchanged. -/
theorem scalar_branch_raises_iff_witness :
    preprocessErrorsForSerialization env0 primNoFn [] (.sym 0)
      = Except.error UNSERIALIZABLE
    ∧ preprocessErrorsForSerialization env0 primNoFn [] (.num 7)
      = Except.ok (.num 7) :=
  ⟨(scalar_branch_raises_iff env0 primNoFn [] (.sym 0) rfl rfl).trans rfl,
   (scalar_branch_raises_iff env0 primNoFn [] (.num 7) rfl rfl).trans rfl⟩

/-- C1 counterexample: a three element sequence whose middle element is an
unserializable scalar makes the whole call raise the sentinel instead of
returning the two element sequence. -/
theorem seq_unserializable_scalar_cx :
    isSerializableInCurrentBrowser env0 primNoFn (.num 1) = true
    ∧ isSerializableInCurrentBrowser env0 primNoFn (.sym 0) = false
    ∧ isSerializableInCurrentBrowser env0 primNoFn (.num 2) = true
    ∧ preprocessErrorsForSerialization env0 primNoFn []
        (.arr [.num 1, .sym 0, .num 2]) = Except.error UNSERIALIZABLE :=
  ⟨rfl, rfl, rfl, rfl⟩

/-- C1 amended: for a sequence with a serializable scalar first element
and an unserializable scalar second element, the pipeline raises the
sentinel, propagated from the recursive call on that element, rather than
dropping it and returning the remaining elements. -/
theorem seq_unserializable_scalar_raises (env : Env) (primOk : JsVal → Bool)
    (objProto : Link) (a b c : JsVal)
    (haA : isArray a = false) (hoA : isObject a = false)
    (hsA : isSerializableInCurrentBrowser env primOk a = true)
    (haB : isArray b = false) (hoB : isObject b = false)
    (hsB : isSerializableInCurrentBrowser env primOk b = false)
    (_haC : isArray c = false) (_hoC : isObject c = false)
    (_hsC : isSerializableInCurrentBrowser env primOk c = true) :
    preprocessErrorsForSerialization env primOk objProto (.arr [a, b, c])
      = Except.error UNSERIALIZABLE := by
  have hA : preprocessErrorsForSerialization env primOk objProto a
      = Except.ok a := by
    rw [preprocess_scalar env primOk objProto a haA hoA, if_pos hsA]
  have hB : preprocessErrorsForSerialization env primOk objProto b
      = Except.error UNSERIALIZABLE := by
    rw [preprocess_scalar env primOk objProto b haB hoB,
      if_neg (by simp [hsB])]
  have hlist : preprocessList env primOk objProto [a, b, c]
      = Except.error UNSERIALIZABLE := by
    apply preprocessList_cons_error2 env primOk objProto a [b, c] a _ hA
    exact preprocessList_cons_error1 env primOk objProto b [c] _ hB
  show Except.map JsVal.arr (preprocessList env primOk objProto [a, b, c])
    = _
  rw [hlist]
  rfl

/-- Witness for C1 amended at a concrete sequence. -/
theorem seq_unserializable_scalar_raises_witness :
    preprocessErrorsForSerialization env0 primNoFn []
        (.arr [.num 3, .sym 1, .num 4]) = Except.error UNSERIALIZABLE :=
  seq_unserializable_scalar_raises env0 primNoFn [] (.num 3) (.sym 1)
    (.num 4) rfl rfl rfl rfl rfl rfl rfl rfl rfl

/-- C2 counterexample: a composite element kept by the array branch
appears in the output as the original object, not as its flattened
literal, although its recursive sanitization produces a different value. -/
theorem seq_elements_not_sanitized_cx :
    preprocessErrorsForSerialization env0 primNoFn []
        (.arr [.obj false [[("x", false, .num 1)]]])
      = Except.ok (.arr [.obj false [[("x", false, .num 1)]]])
    ∧ preprocessErrorsForSerialization env0 primNoFn []
        (.obj false [[("x", false, .num 1)]])
      = Except.ok (.obj false [[("x", false, .num 1)], []])
    ∧ (JsVal.obj false [[("x", false, .num 1)]])
        ≠ (JsVal.obj false [[("x", false, .num 1)], []]) := by
  refine ⟨rfl, rfl, ?_⟩
  simp

/-- C2 amended: on a sequence the pipeline returns the original elements,
filtered by the truthiness of their recursive sanitization; the sanitized
values themselves are not placed in the output. -/
theorem seq_output_filters_originals (env : Env) (primOk : JsVal → Bool)
    (objProto : Link) (es : List JsVal) (v : JsVal)
    (h : preprocessErrorsForSerialization env primOk objProto (.arr es)
      = Except.ok v) :
    v = .arr (es.filter (keptBySanitize env primOk objProto)) := by
  have hx : Except.map JsVal.arr (preprocessList env primOk objProto es)
      = Except.ok v := h
  cases hpl : preprocessList env primOk objProto es with
  | error s =>
    rw [hpl] at hx
    cases hx
  | ok rs =>
    rw [hpl] at hx
    simp only [Except.map] at hx
    cases hx
    rw [preprocessList_filter env primOk objProto es rs hpl]

/-- Witness for C2 amended at a concrete sequence. -/
theorem seq_output_filters_originals_witness :
    JsVal.arr [.num 3]
      = .arr (List.filter (keptBySanitize env0 primNoFn [])
          [.num 0, .num 3]) :=
  seq_output_filters_originals env0 primNoFn [] [.num 0, .num 3]
    (.arr [.num 3]) rfl

/-- C10: an element of a sequence whose recursive sanitization yields a
falsy value is excluded from the output, even when the element itself is
serializable, because retention is decided by the truthiness of the
sanitized value. -/
theorem falsy_sanitized_element_dropped (env : Env) (primOk : JsVal → Bool)
    (objProto : Link) (es rs : List JsVal) (e w : JsVal)
    (harr : preprocessErrorsForSerialization env primOk objProto (.arr es)
      = Except.ok (.arr rs))
    (_hmem : e ∈ es)
    (_hser : isSerializableInCurrentBrowser env primOk e = true)
    (hw : preprocessErrorsForSerialization env primOk objProto e
      = Except.ok w)
    (hfalsy : truthy w = false) :
    e ∉ rs := by
  have hx : Except.map JsVal.arr (preprocessList env primOk objProto es)
      = Except.ok (.arr rs) := harr
  cases hpl : preprocessList env primOk objProto es with
  | error s =>
    rw [hpl] at hx
    cases hx
  | ok rs2 =>
    rw [hpl] at hx
    simp only [Except.map, Except.ok.injEq, JsVal.arr.injEq] at hx
    subst hx
    rw [preprocessList_filter env primOk objProto es rs2 hpl]
    intro hmemf
    have hk := (List.mem_filter.mp hmemf).2
    rw [keptBySanitize, hw] at hk
    have hk2 : truthy w = true := hk
    rw [hfalsy] at hk2
    cases hk2

/-- Witness for C10: the serializable number zero is dropped from the
sequence. -/
theorem falsy_sanitized_element_dropped_witness :
    JsVal.num 0 ∉ ([] : List JsVal)
    ∧ preprocessErrorsForSerialization env0 primNoFn [] (.arr [.num 0])
        = Except.ok (.arr []) := by
  refine ⟨?_, rfl⟩
  exact falsy_sanitized_element_dropped env0 primNoFn [] [.num 0] []
    (.num 0) (.num 0) rfl (by simp) rfl rfl rfl

/-- C3 counterexample: when an unserializable instance value shadows a
serializable same-named prototype value, the name is accepted at the
prototype link but the literal stores the instance value, which fails the
oracle. -/
theorem flatten_value_fails_oracle_cx :
    flattenPairs o0 [[("x", false, .func [])], [("x", false, .num 1)]]
      = [("x", .func [])]
    ∧ o0 (.func []) = false :=
  ⟨rfl, rfl⟩

/-- C3 amended: every accepted key passed the oracle with the accepting
chain link's own value; therefore, whenever every own occurrence of a key
on the chain holds the instance-resolved value (no shadowing with a
different value), every value stored in the record passes the oracle. -/
theorem flatten_values_pass_oracle_without_shadowing (o : JsVal → Bool)
    (links : List Link)
    (hcons : ∀ l ∈ links, ∀ p ∈ ownNames l, ownValue l p = chainGet links p) :
    ∀ kv ∈ flattenPairs o links, o kv.2 = true := by
  intro kv hkv
  rcases List.mem_map.mp hkv with ⟨k, hk, rfl⟩
  rcases (mem_acceptedProps o links k).mp hk with ⟨l, hl, hown, hov⟩
  have hval := hcons l hl k hown
  rw [← hval]
  exact hov

/-- Witness for C3 amended on a single-link object. -/
theorem flatten_values_pass_oracle_without_shadowing_witness :
    o0 (JsVal.num 5) = true := by
  have happ := flatten_values_pass_oracle_without_shadowing o0
    [[("x", false, .num 5)]] ?hc ("x", .num 5) ?hm
  · exact happ
  case hc =>
    intro l hl p hp
    rw [List.mem_singleton] at hl
    subst hl
    have hpx : p = "x" := by simpa [ownNames] using hp
    subst hpx
    rfl
  case hm =>
    rw [show flattenPairs o0 [[("x", false, .num 5)]]
      = [("x", JsVal.num 5)] from rfl]
    exact List.mem_singleton.mpr rfl

/-- C4 counterexample: on the shadowing object the source walk accepts the
name, because it tests the prototype link's own value, while the walk the
spec describes, which tests the instance-resolved value, accepts
nothing. -/
theorem accept_tests_link_value_cx :
    acceptedProps o0 [[("x", false, .func [])], [("x", false, .num 1)]]
      = ["x"]
    ∧ acceptedPropsSpec o0 [[("x", false, .func [])], [("x", false, .num 1)]]
      = [] :=
  ⟨rfl, rfl⟩

/-- C4 amended: the oracle is applied to the chain link's own value for
each name not yet accepted; an accepted name is never re-tested, but a
name that failed at a nearer link is re-tested at ancestor links, so a
name is accepted exactly when some chain link's own value for it passes
the oracle. -/
theorem accepted_iff_some_link_value_passes (o : JsVal → Bool)
    (links : List Link) (k : String) :
    k ∈ acceptedProps o links ↔
      ∃ l ∈ links, k ∈ ownNames l ∧ o (ownValue l k) = true :=
  mem_acceptedProps o links k

/-- Witness for C4 amended: the shadowed name is accepted through the
ancestor link even though the instance's own value fails the oracle. -/
theorem accepted_iff_some_link_value_passes_witness :
    "x" ∈ acceptedProps o0 [[("x", false, .func [])], [("x", false, .num 1)]] := by
  refine (accepted_iff_some_link_value_passes o0
    [[("x", false, .func [])], [("x", false, .num 1)]] "x").mpr ?_
  refine ⟨[("x", false, .num 1)], by simp, by simp [ownNames], rfl⟩

/-- C7 counterexample: a getter-backed own property accepted by the oracle
is read twice during one flattening, once while testing and once while
copying, not exactly once. -/
theorem getter_invoked_twice_cx :
    isSerializableInCurrentBrowser env0 primNoFn (.num 1) = true
    ∧ getterInvocations o0 [[("g", true, .num 1)]] "g" = 2
    ∧ getterInvocations o0 [[("g", true, .num 1)]] "g" ≠ 1 :=
  ⟨rfl, rfl, by decide⟩

/-- C7 amended: a getter-backed own property whose value the oracle
accepts is invoked exactly twice by a flattening run: once when its name
is tested during the walk and once more when the accepted value is copied
into the literal. -/
theorem accepted_getter_invoked_twice (o : JsVal → Bool) (n : String)
    (v : JsVal) (h : o v = true) :
    getterInvocations o [[(n, true, v)]] n = 2 := by
  have hown : ownValue [(n, true, v)] n = v := by
    simp [ownValue, lookupEntry, List.find?]
  have hget : ownGetter [(n, true, v)] n = true := by
    simp [ownGetter, lookupEntry, List.find?]
  have hwalk : walkChainLog o [[(n, true, v)]] ([], [])
      = ([n], [(n, true)]) := by
    rw [walkChainLog, walkChainLog, testLink]
    simp [ownNames, hown, hget, h]
  rw [getterInvocations, propertyReads, hwalk]
  simp [chainGetter, chainEntry, lookupEntry, List.find?]

/-- Witness for C7 amended at a concrete getter. -/
theorem accepted_getter_invoked_twice_witness :
    getterInvocations o0 [[("size", true, .num 5)]] "size" = 2 :=
  accepted_getter_invoked_twice o0 "size" (.num 5) rfl

/-- C9 counterexample: sanitizing the shadowing object succeeds and yields
a literal holding an unserializable value; sanitizing that literal again
drops the entry, so the second application differs from the first. -/
theorem idempotence_fails_cx :
    preprocessErrorsForSerialization env0 primNoFn []
        (.obj false [[("x", false, .func [])], [("x", false, .num 1)]])
      = Except.ok (.obj false [[("x", false, .func [])], []])
    ∧ preprocessErrorsForSerialization env0 primNoFn []
        (.obj false [[("x", false, .func [])], []])
      = Except.ok (.obj false [[], []])
    ∧ (JsVal.obj false [[("x", false, .func [])], []])
        ≠ (JsVal.obj false [[], []]) := by
  refine ⟨rfl, rfl, ?_⟩
  simp

/-- C9 amended: idempotence holds for a composite whenever every value
stored in its flattened record passes the oracle (as when no
unserializable instance value shadows an accepted ancestor property) and
the ambient Object prototype contributes no serializable own values;
re-sanitizing the literal then returns the literal unchanged. -/
theorem idempotent_of_output_values_pass (env : Env) (primOk : JsVal → Bool)
    (objProto : Link) (isErr : Bool) (links : List Link)
    (h1 : ∀ kv ∈ flattenPairs (isSerializableInCurrentBrowser env primOk)
      links, isSerializableInCurrentBrowser env primOk kv.2 = true)
    (h2 : ∀ e ∈ objProto,
      isSerializableInCurrentBrowser env primOk e.2.2 = false) :
    preprocessErrorsForSerialization env primOk objProto (.obj isErr links)
      = Except.ok (convertObjectToSerializableLiteral
          (isSerializableInCurrentBrowser env primOk) objProto links)
    ∧ preprocessErrorsForSerialization env primOk objProto
        (convertObjectToSerializableLiteral
          (isSerializableInCurrentBrowser env primOk) objProto links)
      = Except.ok (convertObjectToSerializableLiteral
          (isSerializableInCurrentBrowser env primOk) objProto links) := by
  constructor
  · rfl
  · have hnd : ((flattenPairs (isSerializableInCurrentBrowser env primOk)
        links).map (fun kv => kv.1)).Nodup := by
      rw [flattenPairs_keys]
      exact nodup_acceptedProps _ links
    have hlit := flattenPairs_literal
      (isSerializableInCurrentBrowser env primOk) objProto
      (flattenPairs (isSerializableInCurrentBrowser env primOk) links)
      hnd h1 h2
    show Except.ok (convertObjectToSerializableLiteral
        (isSerializableInCurrentBrowser env primOk) objProto
        [(flattenPairs (isSerializableInCurrentBrowser env primOk) links).map
          (fun kv => (kv.1, false, kv.2)), objProto])
      = _
    simp only [convertObjectToSerializableLiteral]
    rw [hlit]

/-- Witness for C9 amended on a shadowing-free object over a prototype
whose own properties all fail the oracle. -/
theorem idempotent_of_output_values_pass_witness :
    preprocessErrorsForSerialization env0 primNoFn
        [("toString", false, .func [])] (.obj false [[("x", false, .num 5)]])
      = Except.ok (convertObjectToSerializableLiteral
          (isSerializableInCurrentBrowser env0 primNoFn)
          [("toString", false, .func [])] [[("x", false, .num 5)]])
    ∧ preprocessErrorsForSerialization env0 primNoFn
        [("toString", false, .func [])]
        (convertObjectToSerializableLiteral
          (isSerializableInCurrentBrowser env0 primNoFn)
          [("toString", false, .func [])] [[("x", false, .num 5)]])
      = Except.ok (convertObjectToSerializableLiteral
          (isSerializableInCurrentBrowser env0 primNoFn)
          [("toString", false, .func [])] [[("x", false, .num 5)]]) := by
  apply idempotent_of_output_values_pass
  · intro kv hkv
    rw [show flattenPairs (isSerializableInCurrentBrowser env0 primNoFn)
      [[("x", false, .num 5)]] = [("x", JsVal.num 5)] from rfl] at hkv
    rw [List.mem_singleton] at hkv
    subst hkv
    rfl
  · intro e he
    rw [List.mem_singleton] at he
    subst he
    rfl

end Serialization
